import Mathlib

/-!
Verification of the `go-shims/x/log` structured-logging facade.

The development shallowly embeds the repository's Go code:

* the context field store (`log.go`, concatenated into `test/log_test.go`
  in this source drop): `With*` / `Get*` over an immutable context chain.
  Go maps are reference values, so the custom-fields bag is modelled by an
  explicit heap (`Heap`, a list of bags indexed by address); `MetaData`
  values stored in a context are heap references (`GoVal.metaRef`) or the
  nil map (`GoVal.metaNil`).  `WithCustomField` allocates a fresh cell and
  never writes to an existing one, exactly as the Go code copies the bag
  before inserting;
* the logger facade (`logger.go`): `NewLogger`, `SetLevel`, `SetOutput`,
  `SetFormatter`, `addContextFields` and the `*Contextf` family.  The
  underlying logrus engine is external to the repository; the pieces of
  its documented contract that the spec relies on (numeric severity with
  smaller = more severe, emission iff `entry ≤ threshold`, `WithField`
  as map update on a copied field set) are embedded as `logAt` and
  `metaInsert` on entry fields;
* the global registry (`unnamed/part_001`): the `sync.Once` gate is a
  boolean `onceDone`, the fallback-on-failure branch is kept;
* the caller hook (`unnamed/part_000`): `runtime.Caller` is an abstract
  `Option Frame` input; the name simplification follows the two
  `strings.LastIndex` slices of the source.

File-open success for `NewLogger` is abstracted by a predicate
`fsOpenOk : String → Bool`; an `io.Writer` identity is an abstract `Nat`.
-/

/-- Dynamic (interface) values stored in contexts and bags.  `metaRef a`
is a `MetaData` map living at heap address `a`; `metaNil` is the nil
`MetaData` map (still of dynamic type `MetaData` in Go). -/
inductive GoVal where
  | str (s : String)
  | int (n : Int)
  | metaRef (addr : Nat)
  | metaNil
deriving DecidableEq

/-- The contents of one `MetaData` map (`map[string]interface{}`),
as an association list with unique keys maintained by `metaInsert`. -/
abbrev MetaMap := List (String × GoVal)

/-- The heap of allocated `MetaData` maps; an address is an index. -/
abbrev Heap := List MetaMap

/-- Go map update `m[k] = v`: replace the binding of `k` if present,
otherwise add it.  Preserves key uniqueness. -/
def metaInsert : MetaMap → String → GoVal → MetaMap
  | [], k, v => [(k, v)]
  | (k', v') :: rest, k, v =>
    if k = k' then (k, v) :: rest else (k', v') :: metaInsert rest k v

/-- Go map read `m[k]`. -/
def metaLookup : MetaMap → String → Option GoVal
  | [], _ => none
  | (k', v') :: rest, k => if k = k' then some v' else metaLookup rest k

/-- Context keys.  The library's five `contextKey` constants are distinct
constructors; `other` stands for keys of any other dynamic type, which by
construction never collide with the library's. -/
inductive CtxKey where
  | requestID
  | userID
  | traceID
  | spanID
  | customFields
  | other (tag : String)
deriving DecidableEq

/-- A Go `context.Context`: `background` or a `context.WithValue` layer. -/
inductive Ctx where
  | background
  | withValue (parent : Ctx) (key : CtxKey) (val : GoVal)
deriving DecidableEq

/-- `ctx.Value(key)`: search the chain from innermost outward. -/
def Ctx.value : Ctx → CtxKey → Option GoVal
  | .background, _ => none
  | .withValue p k v, k' => if k' = k then some v else p.value k'

/-- `WithRequestID(ctx, reqID)`. -/
def WithRequestID (ctx : Ctx) (reqID : String) : Ctx :=
  ctx.withValue .requestID (.str reqID)

/-- `WithUserID(ctx, userID)`. -/
def WithUserID (ctx : Ctx) (userID : String) : Ctx :=
  ctx.withValue .userID (.str userID)

/-- `WithTraceID(ctx, traceID)`. -/
def WithTraceID (ctx : Ctx) (traceID : String) : Ctx :=
  ctx.withValue .traceID (.str traceID)

/-- `WithSpanID(ctx, spanID)`. -/
def WithSpanID (ctx : Ctx) (spanID : String) : Ctx :=
  ctx.withValue .spanID (.str spanID)

/-- `GetRequestID(ctx)`: `ctx.Value(RequestIDKey).(string)`; `none`
models `ok = false` (the Go zero value `""` is returned alongside). -/
def GetRequestID (ctx : Ctx) : Option String :=
  match ctx.value .requestID with
  | some (.str s) => some s
  | _ => none

/-- `GetUserID(ctx)`. -/
def GetUserID (ctx : Ctx) : Option String :=
  match ctx.value .userID with
  | some (.str s) => some s
  | _ => none

/-- `GetTraceID(ctx)`. -/
def GetTraceID (ctx : Ctx) : Option String :=
  match ctx.value .traceID with
  | some (.str s) => some s
  | _ => none

/-- `GetSpanID(ctx)`. -/
def GetSpanID (ctx : Ctx) : Option String :=
  match ctx.value .spanID with
  | some (.str s) => some s
  | _ => none

/-- `GetCustomFields(ctx)`: `ctx.Value(CustomFieldsKey).(MetaData)`.
The assertion succeeds exactly for `metaRef` and `metaNil` values (a nil
map still has dynamic type `MetaData`, so Go returns `(nil, true)`). -/
def GetCustomFields (ctx : Ctx) : Option GoVal :=
  match ctx.value .customFields with
  | some (.metaRef a) => some (.metaRef a)
  | some .metaNil => some .metaNil
  | _ => none

/-- Dereference a `MetaData` value: ranging over or indexing the nil map
(or a non-map, which cannot occur after the type assertion) yields
nothing. -/
def derefMeta (h : Heap) : GoVal → MetaMap
  | .metaRef a => h.getD a []
  | _ => []

/-- The bag contents `WithCustomField` starts from and `addContextFields`
ranges over: the dereferenced custom-fields binding, or `[]` when the
binding is absent, of the wrong dynamic type, or the nil map — exactly
the `!ok || fields == nil` branch of the source. -/
def readBag (h : Heap) (ctx : Ctx) : MetaMap :=
  match GetCustomFields ctx with
  | some v => derefMeta h v
  | none => []

/-- `WithCustomField(ctx, key, value)`: read the existing bag, copy it
into a freshly allocated map, insert the entry, and attach the fresh
reference.  No existing heap cell is ever written. -/
def WithCustomField (h : Heap) (ctx : Ctx) (key : String) (value : GoVal) :
    Heap × Ctx :=
  let fields := readBag h ctx
  let newFields := metaInsert fields key value
  (h ++ [newFields], ctx.withValue .customFields (.metaRef h.length))

/-- A `GoVal` is heap-consistent when any map reference it carries is an
allocated address. -/
def GoVal.refOk (h : Heap) : GoVal → Prop
  | .metaRef a => a < h.length
  | _ => True

/-- A context is heap-consistent when every value on its chain is. -/
def Ctx.wf (h : Heap) : Ctx → Prop
  | .background => True
  | .withValue p _ v => v.refOk h ∧ p.wf h

/-- Whether a key is bound anywhere in the chain. -/
def Ctx.boundIn : Ctx → CtxKey → Bool
  | .background, _ => false
  | .withValue p k _, k' => k' = k || p.boundIn k'

/-- Heap consistency: every allocated bag has unique keys, as every Go
map does. -/
def Heap.wf (h : Heap) : Prop :=
  ∀ m ∈ h, (m.map Prod.fst).Nodup

/-- Discriminator for string dynamic type (the `.(string)` assertion). -/
def GoVal.isStr : GoVal → Bool
  | .str _ => true
  | _ => false

/-- Discriminator for `MetaData` dynamic type (the `.(MetaData)`
assertion); the nil map is of type `MetaData`. -/
def GoVal.isMeta : GoVal → Bool
  | .metaRef _ => true
  | .metaNil => true
  | _ => false

/-- One `With*` call of the context field store. -/
inductive WOp where
  | reqID (s : String)
  | userID (s : String)
  | traceID (s : String)
  | spanID (s : String)
  | custom (k : String) (v : GoVal)
deriving DecidableEq

/-- Apply one `With*` call to a heap/context pair. -/
def applyOp (s : Heap × Ctx) : WOp → Heap × Ctx
  | .reqID v => (s.1, WithRequestID s.2 v)
  | .userID v => (s.1, WithUserID s.2 v)
  | .traceID v => (s.1, WithTraceID s.2 v)
  | .spanID v => (s.1, WithSpanID s.2 v)
  | .custom k v => WithCustomField s.1 s.2 k v

/-- Apply a sequence of `With*` calls, left to right. -/
def applyOps (s : Heap × Ctx) : List WOp → Heap × Ctx
  | [] => s
  | op :: rest => applyOps (applyOp s op) rest

/-- The observable results of all five `Get*` readers on one context:
the four id readers, the custom-fields `found` flag, and the
dereferenced bag contents. -/
structure Readers where
  req : Option String
  user : Option String
  trace : Option String
  span : Option String
  bagFound : Bool
  bag : MetaMap
deriving DecidableEq

/-- Evaluate all five readers. -/
def readersOf (h : Heap) (c : Ctx) : Readers :=
  { req := GetRequestID c
    user := GetUserID c
    trace := GetTraceID c
    span := GetSpanID c
    bagFound := (GetCustomFields c).isSome
    bag := readBag h c }

/-- The request-id payload of an op, if any. -/
def selReq : WOp → Option String
  | .reqID s => some s
  | _ => none

/-- The user-id payload of an op, if any. -/
def selUser : WOp → Option String
  | .userID s => some s
  | _ => none

/-- The trace-id payload of an op, if any. -/
def selTrace : WOp → Option String
  | .traceID s => some s
  | _ => none

/-- The span-id payload of an op, if any. -/
def selSpan : WOp → Option String
  | .spanID s => some s
  | _ => none

/-- The innermost (latest) binding a sequence of ops makes for one
selector. -/
def lastBound (sel : WOp → Option String) : List WOp → Option String
  | [] => none
  | op :: rest => (lastBound sel rest).orElse fun _ => sel op

/-- The custom-field entries of a sequence of ops, in order. -/
def opCustoms : List WOp → List (String × GoVal)
  | [] => []
  | .custom k v :: rest => (k, v) :: opCustoms rest
  | _ :: rest => opCustoms rest

/-- Insert a list of entries into a bag, left to right. -/
def bagInsertAll (m : MetaMap) (ps : List (String × GoVal)) : MetaMap :=
  ps.foldl (fun acc p => metaInsert acc p.1 p.2) m

/-- The reader results the spec predicts after a sequence of `With*`
ops: each id is the innermost op binding it, else the ancestor's; the
bag is the ancestor's bag contents with every custom entry layered on,
and it is found as soon as one custom op ran. -/
def expectedReaders (r : Readers) (ops : List WOp) : Readers :=
  { req := (lastBound selReq ops).orElse fun _ => r.req
    user := (lastBound selUser ops).orElse fun _ => r.user
    trace := (lastBound selTrace ops).orElse fun _ => r.trace
    span := (lastBound selSpan ops).orElse fun _ => r.span
    bagFound := if opCustoms ops = [] then r.bagFound else true
    bag := bagInsertAll r.bag (opCustoms ops) }

/-- The effect of a single op on the reader results. -/
def stepReaders (r : Readers) : WOp → Readers
  | .reqID s => { r with req := some s }
  | .userID s => { r with user := some s }
  | .traceID s => { r with trace := some s }
  | .spanID s => { r with span := some s }
  | .custom k v => { r with bagFound := true, bag := metaInsert r.bag k v }

/-- Logrus severity levels; `toNat` gives the logrus numeric encoding,
in which a smaller number is a more severe level. -/
inductive LogLevel where
  | panic
  | fatal
  | error
  | warn
  | info
  | debug
  | trace
deriving DecidableEq

/-- The logrus numeric value of a level. -/
def LogLevel.toNat : LogLevel → Nat
  | .panic => 0
  | .fatal => 1
  | .error => 2
  | .warn => 3
  | .info => 4
  | .debug => 5
  | .trace => 6

/-- `LogFormat` constant `FormatText`. -/
def FormatText : String := "text"

/-- `LogFormat` constant `FormatJSON`. -/
def FormatJSON : String := "json"

/-- The `os.Stdout` writer identity. -/
def stdoutWriter : Nat := 0

/-- The `Config` value object of `config.go`.  `Output` is an abstract
writer identity. -/
structure Config where
  Level : LogLevel
  Format : String
  Output : Nat
  FilePath : String
  EnableJSON : Bool
  JSONPretty : Bool
  ReportCaller : Bool
  TimestampFormat : String
deriving DecidableEq

/-- `DefaultConfig()`; `JSONPretty` is left at its zero value. -/
def DefaultConfig : Config :=
  { Level := .info
    Format := FormatJSON
    Output := stdoutWriter
    FilePath := ""
    EnableJSON := false
    JSONPretty := false
    ReportCaller := true
    TimestampFormat := "2006/01/02 15:04:05.000" }

/-- The installed formatter, keeping the options the source sets that
claims observe. -/
inductive Formatter where
  | json (timestampFormat : String) (pretty : Bool)
  | text (timestampFormat : String)
deriving DecidableEq

/-- Whether the JSON formatter is installed. -/
def Formatter.isJson : Formatter → Bool
  | .json _ _ => true
  | .text _ => false

/-- The engine's output destination. -/
inductive OutputTarget where
  | writer (w : Nat)
  | file (path : String)
deriving DecidableEq

/-- A `LogrusLogger`: the engine handle's observable state (level,
formatter, output, hook) plus the `config` snapshot. -/
structure LoggerState where
  level : LogLevel
  formatter : Formatter
  out : OutputTarget
  callerHook : Bool
  config : Config
deriving DecidableEq

/-- `NewLogger(cfg)`: `none` models the error return when the file open
fails (`fsOpenOk` abstracts the filesystem); otherwise level, output,
formatter and optional caller hook are set from the config. -/
def NewLogger (fsOpenOk : String → Bool) (cfg : Config) : Option LoggerState :=
  match (if cfg.FilePath ≠ "" then
           (if fsOpenOk cfg.FilePath then some (OutputTarget.file cfg.FilePath)
            else none)
         else some (OutputTarget.writer cfg.Output)) with
  | none => none
  | some o =>
    some { level := cfg.Level
           formatter :=
             if cfg.EnableJSON || cfg.Format == FormatJSON then
               .json cfg.TimestampFormat cfg.JSONPretty
             else
               .text cfg.TimestampFormat
           out := o
           callerHook := cfg.ReportCaller
           config := cfg }

/-- `SetLevel(level)`. -/
def SetLevel (l : LoggerState) (level : LogLevel) : LoggerState :=
  { l with level := level, config := { l.config with Level := level } }

/-- `SetOutput(output)`: swap the destination and clear the file-path
association. -/
def SetOutput (l : LoggerState) (output : Nat) : LoggerState :=
  { l with out := .writer output
           config := { l.config with Output := output, FilePath := "" } }

/-- `SetFormatter(format)`. -/
def SetFormatter (l : LoggerState) (format : String) : LoggerState :=
  if format == FormatJSON then
    { l with formatter := .json l.config.TimestampFormat l.config.JSONPretty
             config := { l.config with Format := format, EnableJSON := true } }
  else
    { l with formatter := .text l.config.TimestampFormat
             config := { l.config with Format := format, EnableJSON := false } }

/-- An emitted record: severity, structured fields, message. -/
structure Record where
  level : LogLevel
  fields : MetaMap
  msg : String
deriving DecidableEq

/-- Modelled from the spec: the external engine's level filtering
(external-interface contract item 1, "a settable severity threshold"):
a record at severity `lvl` is emitted iff `lvl` is at or above the
threshold, i.e. `lvl.toNat ≤ l.level.toNat` in the numeric encoding. -/
def logAt (l : LoggerState) (lvl : LogLevel) (fields : MetaMap)
    (msg : String) : Option Record :=
  if lvl.toNat ≤ l.level.toNat then some ⟨lvl, fields, msg⟩ else none

/-- One `if v, ok := Get*(ctx); ok { entry = entry.WithField(key, v) }`
step of `addContextFields`. -/
def withOptField (e : MetaMap) (k : String) (o : Option String) : MetaMap :=
  match o with
  | some v => metaInsert e k (.str v)
  | none => e

/-- `addContextFields(ctx, entry)`: add each bound id as a structured
attribute under its key string, then every custom-field entry.
`entry.WithField` is the engine's map update on a copied field set. -/
def addContextFields (h : Heap) (ctx : Ctx) (e : MetaMap) : MetaMap :=
  let e1 := withOptField e "request_id" (GetRequestID ctx)
  let e2 := withOptField e1 "user_id" (GetUserID ctx)
  let e3 := withOptField e2 "trace_id" (GetTraceID ctx)
  let e4 := withOptField e3 "span_id" (GetSpanID ctx)
  match GetCustomFields ctx with
  | some bag => bagInsertAll e4 (derefMeta h bag)
  | none => e4

/-- The common body of the `*Contextf` methods: start from the empty
field set of `Logger.WithContext(ctx)`, merge the context fields, and
emit at the method's level. -/
def logContextf (l : LoggerState) (h : Heap) (ctx : Ctx) (lvl : LogLevel)
    (msg : String) : Option Record :=
  logAt l lvl (addContextFields h ctx []) msg

/-- `DebugContextf`. -/
def DebugContextf (l : LoggerState) (h : Heap) (ctx : Ctx) (msg : String) :
    Option Record :=
  logContextf l h ctx .debug msg

/-- `InfoContextf`. -/
def InfoContextf (l : LoggerState) (h : Heap) (ctx : Ctx) (msg : String) :
    Option Record :=
  logContextf l h ctx .info msg

/-- `WarnContextf`. -/
def WarnContextf (l : LoggerState) (h : Heap) (ctx : Ctx) (msg : String) :
    Option Record :=
  logContextf l h ctx .warn msg

/-- `ErrorContextf`. -/
def ErrorContextf (l : LoggerState) (h : Heap) (ctx : Ctx) (msg : String) :
    Option Record :=
  logContextf l h ctx .error msg

/-- `FatalContextf` (the process exit after emission is outside the
record model). -/
def FatalContextf (l : LoggerState) (h : Heap) (ctx : Ctx) (msg : String) :
    Option Record :=
  logContextf l h ctx .fatal msg

/-- The global registry's state: the `sync.Once` gate and the
`globalLogger` variable. -/
structure GlobalState where
  onceDone : Bool
  globalLogger : Option LoggerState
deriving DecidableEq

/-- The registry's state at process start. -/
def startGlobalState : GlobalState :=
  { onceDone := false, globalLogger := none }

/-- The fallback logger built when `NewLogger` fails inside
`InitGlobalLogger`: the standard logrus logger (default text formatter)
set to error level and the config's output, wrapped with the given
config snapshot. -/
def fallbackLogger (cfg : Config) : LoggerState :=
  { level := .error
    formatter := .text ""
    out := .writer cfg.Output
    callerHook := false
    config := cfg }

/-- `InitGlobalLogger(cfg)`: inside the once gate, build the logger or
fall back on failure; outside it, do nothing. -/
def InitGlobalLogger (fsOpenOk : String → Bool) (g : GlobalState)
    (cfg : Config) : GlobalState :=
  if g.onceDone then g
  else
    { onceDone := true
      globalLogger := some ((NewLogger fsOpenOk cfg).getD (fallbackLogger cfg)) }

/-- A resolved stack frame as `runtime.Caller` reports it. -/
structure Frame where
  file : String
  line : Nat
  funcName : String
deriving DecidableEq

/-- The suffix after the last occurrence of `sep`, or the whole list
when `sep` does not occur: the `strings.LastIndex` slice of the
source. -/
def afterLastSep (sep : Char) : List Char → List Char
  | [] => []
  | c :: rest =>
    if sep ∈ c :: rest then afterLastSep sep rest else c :: rest

/-- The source's function-name simplification: strip through the last
path separator, then through the last dot. -/
def simplifyFuncName (funcName : String) : String :=
  String.mk (afterLastSep '.' (afterLastSep '/' funcName.toList))

/-- `CallerHook.Fire(entry)`: `frame` is the `runtime.Caller(SkipFrames)`
result (`none` when `ok` is false).  Returns the entry's field set and
the hook's error, which is always nil. -/
def callerHookFire (frame : Option Frame) (data : MetaMap) :
    MetaMap × Option String :=
  match frame with
  | none => (data, none)
  | some f =>
    let fileVal := "file://" ++ f.file ++ ":" ++ toString f.line
    let funcVal := simplifyFuncName f.funcName ++ "()"
    (metaInsert (metaInsert data "file" (.str fileVal)) "func" (.str funcVal),
     none)

/-- A filesystem on which every file open succeeds, for concrete
instantiations. -/
def fsAlways : String → Bool := fun _ => true

/-- The logger `NewLogger` builds from `DefaultConfig` on any
filesystem. -/
def defaultLogger : LoggerState :=
  { level := .info
    formatter := .json "2006/01/02 15:04:05.000" false
    out := .writer stdoutWriter
    callerHook := true
    config := DefaultConfig }

/-- A context binding the trace-id key to a non-string and the
custom-fields key to a non-map, for concrete instantiations. -/
def illTypedCtx : Ctx :=
  (Ctx.background.withValue .traceID (.int 7)).withValue
    .customFields (.str "oops")

/-- The spec's scenario heap/context: `WithRequestID(ctx, "req-1")` then
`WithCustomField(ctx2, "a", 1)`, from the empty heap. -/
def demoPair : Heap × Ctx :=
  WithCustomField [] (WithRequestID Ctx.background "req-1") "a" (GoVal.int 1)

/-- The record the scenario's context-aware info call emits. -/
def demoRecord : Record :=
  ⟨.info, [("request_id", GoVal.str "req-1"), ("a", GoVal.int 1)], "m"⟩

/-- A context whose custom-fields bag reuses the attribute name of the
request-id field: `WithRequestID(ctx, "r")` then
`WithCustomField(_, "request_id", "x")`. -/
def clashPair : Heap × Ctx :=
  WithCustomField [] (WithRequestID Ctx.background "r") "request_id"
    (GoVal.str "x")

/-- A concrete `With*` sequence for instantiations. -/
def demoOps : List WOp :=
  [.reqID "r", .custom "a" (.int 1), .reqID "r2", .custom "b" (.str "v")]

/- ------------------------------------------------------------------ -/
/- Helper lemmas                                                      -/
/- ------------------------------------------------------------------ -/

theorem metaLookup_metaInsert (m : MetaMap) (k : String) (v : GoVal)
    (s : String) :
    metaLookup (metaInsert m k v) s = if s = k then some v else metaLookup m s := by
  induction m with
  | nil =>
    simp [metaInsert, metaLookup]
  | cons p rest ih =>
    obtain ⟨k', v'⟩ := p
    by_cases hk : k = k'
    · subst hk
      by_cases hs : s = k <;> simp [metaInsert, metaLookup, hs]
    · by_cases hs : s = k'
      · subst hs
        have hks : ¬s = k := fun hc => hk hc.symm
        simp [metaInsert, hk, metaLookup, hks]
      · simp [metaInsert, hk, metaLookup, hs, ih]

theorem getD_append_left {α : Type} (l t : List α) (d : α) (n : Nat)
    (hn : n < l.length) :
    (l ++ t).getD n d = l.getD n d := by
  induction l generalizing n with
  | nil => simp at hn
  | cons a l ih =>
    cases n with
    | zero => rfl
    | succ n =>
      simp only [List.cons_append, List.getD_cons_succ]
      exact ih n (by simp only [List.length_cons] at hn; omega)

theorem getD_append_self {α : Type} (l : List α) (m d : α) :
    (l ++ [m]).getD l.length d = m := by
  induction l with
  | nil => rfl
  | cons a l ih => simp [List.getD_cons_succ, ih]

theorem value_refOk (h : Heap) (c : Ctx) (hwf : c.wf h) (k : CtxKey)
    (v : GoVal) (hv : c.value k = some v) : v.refOk h := by
  induction c with
  | background => simp [Ctx.value] at hv
  | withValue p k0 v0 ih =>
    simp only [Ctx.value] at hv
    by_cases hk : k = k0
    · rw [if_pos hk] at hv
      cases hv
      exact hwf.1
    · rw [if_neg hk] at hv
      exact ih hwf.2 hv

theorem readBag_append (h t : Heap) (c : Ctx) (hwf : c.wf h) :
    readBag (h ++ t) c = readBag h c := by
  unfold readBag
  cases hg : GetCustomFields c with
  | none => rfl
  | some v =>
    cases v with
    | metaRef a =>
      have hval : c.value .customFields = some (.metaRef a) := by
        unfold GetCustomFields at hg
        cases hv : c.value CtxKey.customFields with
        | none => rw [hv] at hg; cases hg
        | some w =>
          rw [hv] at hg
          cases w <;> simp_all
      have := value_refOk h c hwf _ _ hval
      simp only [GoVal.refOk] at this
      simp only [derefMeta]
      exact getD_append_left h t [] a this
    | metaNil => simp [derefMeta]
    | str s =>
      exfalso
      unfold GetCustomFields at hg
      cases hv : c.value CtxKey.customFields with
      | none => rw [hv] at hg; cases hg
      | some w => rw [hv] at hg; cases w <;> simp_all
    | int n =>
      exfalso
      unfold GetCustomFields at hg
      cases hv : c.value CtxKey.customFields with
      | none => rw [hv] at hg; cases hg
      | some w => rw [hv] at hg; cases w <;> simp_all

theorem newLogger_inv (fs : String → Bool) (cfg : Config) (l : LoggerState)
    (h : NewLogger fs cfg = some l) :
    l.level = cfg.Level ∧
    l.formatter =
      (if cfg.EnableJSON || cfg.Format == FormatJSON then
        Formatter.json cfg.TimestampFormat cfg.JSONPretty
       else Formatter.text cfg.TimestampFormat) ∧
    l.callerHook = cfg.ReportCaller ∧
    l.config = cfg := by
  unfold NewLogger at h
  split at h
  · cases h
  · have := Option.some.inj h
    subst this
    exact ⟨rfl, rfl, rfl, rfl⟩

theorem readBag_of_ref (hh : Heap) (c : Ctx) (a : Nat)
    (hg : GetCustomFields c = some (GoVal.metaRef a)) :
    readBag hh c = hh.getD a [] := by
  simp [readBag, hg, derefMeta]

/- ------------------------------------------------------------------ -/
/- Claim theorems                                                     -/
/- ------------------------------------------------------------------ -/

/-- Claim C1: for every heap, base context, key and pair of values, when
two owners hold the context derived by `WithCustomField(base, k, v1)` and
one of them derives a further context with `WithCustomField(_, k, v2)`,
the second call only appends a fresh bag to the heap (no published bag
is mutated); afterwards reading `k` through the first context still
yields `v1`, and through the newly derived context yields `v2`, with the
bag found in both. -/
theorem withCustomField_branch_isolation (h : Heap) (base : Ctx) (k : String)
    (v1 v2 : GoVal) :
    (∃ m, (WithCustomField (WithCustomField h base k v1).1
        (WithCustomField h base k v1).2 k v2).1
        = (WithCustomField h base k v1).1 ++ [m]) ∧
    (GetCustomFields (WithCustomField h base k v1).2).isSome = true ∧
    (GetCustomFields (WithCustomField (WithCustomField h base k v1).1
        (WithCustomField h base k v1).2 k v2).2).isSome = true ∧
    metaLookup (readBag (WithCustomField (WithCustomField h base k v1).1
        (WithCustomField h base k v1).2 k v2).1
        (WithCustomField h base k v1).2) k = some v1 ∧
    metaLookup (readBag (WithCustomField (WithCustomField h base k v1).1
        (WithCustomField h base k v1).2 k v2).1
        (WithCustomField (WithCustomField h base k v1).1
        (WithCustomField h base k v1).2 k v2).2) k = some v2 := by
  have e0 : (WithCustomField h base k v1).1
      = h ++ [metaInsert (readBag h base) k v1] := rfl
  have e1 : (WithCustomField (WithCustomField h base k v1).1
        (WithCustomField h base k v1).2 k v2).1
      = (WithCustomField h base k v1).1
        ++ [metaInsert (readBag (WithCustomField h base k v1).1
              (WithCustomField h base k v1).2) k v2] := rfl
  have hlen : h.length < (WithCustomField h base k v1).1.length := by
    rw [e0]
    simp
  have hGC : GetCustomFields (WithCustomField h base k v1).2
      = some (GoVal.metaRef h.length) := by
    simp [WithCustomField, GetCustomFields, Ctx.value]
  have hGC2 : GetCustomFields (WithCustomField (WithCustomField h base k v1).1
        (WithCustomField h base k v1).2 k v2).2
      = some (GoVal.metaRef (WithCustomField h base k v1).1.length) := by
    simp [WithCustomField, GetCustomFields, Ctx.value]
  refine ⟨⟨_, rfl⟩, ?_, ?_, ?_, ?_⟩
  · rw [hGC]; rfl
  · rw [hGC2]; rfl
  · rw [readBag_of_ref _ _ _ hGC, e1,
        getD_append_left _ _ _ _ hlen, e0, getD_append_self,
        metaLookup_metaInsert]
    simp
  · rw [readBag_of_ref _ _ _ hGC2, e1, getD_append_self,
        metaLookup_metaInsert]
    have hb : readBag (WithCustomField h base k v1).1
        (WithCustomField h base k v1).2 = metaInsert (readBag h base) k v1 := by
      rw [readBag_of_ref _ _ _ hGC, e0, getD_append_self]
    simp [hb]

/-- Claim C6: with caller reporting enabled, when the frame at the fixed
skip count is available the hook attaches exactly the two fields `file`
(`file://<path>:<line>`) and `func` (`<simplified name>()`), leaving all
other fields unchanged; when it is unavailable the field set is
unchanged; the hook never returns an error. -/
theorem callerHook_fire_spec (f : Frame) (data : MetaMap) (s : String) :
    callerHookFire none data = (data, none) ∧
    (callerHookFire (some f) data).2 = none ∧
    metaLookup (callerHookFire (some f) data).1 s =
      (if s = "file" then
        some (GoVal.str ("file://" ++ f.file ++ ":" ++ toString f.line))
       else if s = "func" then
        some (GoVal.str (simplifyFuncName f.funcName ++ "()"))
       else metaLookup data s) := by
  refine ⟨rfl, rfl, ?_⟩
  show metaLookup (metaInsert (metaInsert data "file"
      (GoVal.str ("file://" ++ f.file ++ ":" ++ toString f.line))) "func"
      (GoVal.str (simplifyFuncName f.funcName ++ "()"))) s = _
  rw [metaLookup_metaInsert, metaLookup_metaInsert]
  by_cases h1 : s = "file"
  · subst h1
    simp
  · by_cases h2 : s = "func" <;> simp [h1, h2]

/-- Claim C7: `SetOutput(w)` points the instance at writer `w`, records
`w` as the configured output, clears the stored file path, and leaves the
level, formatter, caller hook and every other configuration field
unchanged. -/
theorem setOutput_effects (l : LoggerState) (w : Nat) :
    (SetOutput l w).out = OutputTarget.writer w ∧
    (SetOutput l w).config.Output = w ∧
    (SetOutput l w).config.FilePath = "" ∧
    (SetOutput l w).level = l.level ∧
    (SetOutput l w).formatter = l.formatter ∧
    (SetOutput l w).callerHook = l.callerHook ∧
    (SetOutput l w).config.Level = l.config.Level ∧
    (SetOutput l w).config.Format = l.config.Format ∧
    (SetOutput l w).config.EnableJSON = l.config.EnableJSON ∧
    (SetOutput l w).config.JSONPretty = l.config.JSONPretty ∧
    (SetOutput l w).config.ReportCaller = l.config.ReportCaller ∧
    (SetOutput l w).config.TimestampFormat = l.config.TimestampFormat :=
  ⟨rfl, rfl, rfl, rfl, rfl, rfl, rfl, rfl, rfl, rfl, rfl, rfl⟩

theorem value_none_of_not_boundIn (c : Ctx) (k : CtxKey)
    (h : c.boundIn k = false) : c.value k = none := by
  induction c with
  | background => rfl
  | withValue p k0 v ih =>
    simp only [Ctx.boundIn, Bool.or_eq_false_iff,
      decide_eq_false_iff_not] at h
    simp only [Ctx.value, if_neg h.1]
    exact ih h.2

/-- Claim C8: every `Get*` reader returns found equal to false on a
context whose chain never binds the corresponding library key; the
readers are total functions with no error channel, so no input context
makes them signal an error. -/
theorem get_readers_absent (c : Ctx) :
    (c.boundIn .requestID = false → GetRequestID c = none) ∧
    (c.boundIn .userID = false → GetUserID c = none) ∧
    (c.boundIn .traceID = false → GetTraceID c = none) ∧
    (c.boundIn .spanID = false → GetSpanID c = none) ∧
    (c.boundIn .customFields = false → GetCustomFields c = none) := by
  refine ⟨fun h => ?_, fun h => ?_, fun h => ?_, fun h => ?_, fun h => ?_⟩
  · simp [GetRequestID, value_none_of_not_boundIn c _ h]
  · simp [GetUserID, value_none_of_not_boundIn c _ h]
  · simp [GetTraceID, value_none_of_not_boundIn c _ h]
  · simp [GetSpanID, value_none_of_not_boundIn c _ h]
  · simp [GetCustomFields, value_none_of_not_boundIn c _ h]

/-- Witness for C8 at the background context. -/
theorem get_readers_absent_witness :
    Ctx.background.boundIn CtxKey.requestID = false ∧
    GetRequestID Ctx.background = none ∧
    Ctx.background.boundIn CtxKey.customFields = false ∧
    GetCustomFields Ctx.background = none :=
  ⟨rfl, (get_readers_absent Ctx.background).1 rfl, rfl,
   (get_readers_absent Ctx.background).2.2.2.2 rfl⟩

/-- Claim C10: a binding of the wrong dynamic type under a library key —
a non-string under one of the four id keys, or a non-`MetaData` value
under the custom-fields key — makes the corresponding `Get*` reader
return found equal to false, exactly as if the key were absent. -/
theorem get_readers_wrong_type (c : Ctx) :
    (∀ v, c.value .requestID = some v → v.isStr = false →
      GetRequestID c = none) ∧
    (∀ v, c.value .userID = some v → v.isStr = false →
      GetUserID c = none) ∧
    (∀ v, c.value .traceID = some v → v.isStr = false →
      GetTraceID c = none) ∧
    (∀ v, c.value .spanID = some v → v.isStr = false →
      GetSpanID c = none) ∧
    (∀ v, c.value .customFields = some v → v.isMeta = false →
      GetCustomFields c = none) := by
  refine ⟨fun v hv ht => ?_, fun v hv ht => ?_, fun v hv ht => ?_,
    fun v hv ht => ?_, fun v hv ht => ?_⟩
  · cases v <;> simp [GoVal.isStr] at ht <;> simp [GetRequestID, hv]
  · cases v <;> simp [GoVal.isStr] at ht <;> simp [GetUserID, hv]
  · cases v <;> simp [GoVal.isStr] at ht <;> simp [GetTraceID, hv]
  · cases v <;> simp [GoVal.isStr] at ht <;> simp [GetSpanID, hv]
  · cases v <;> simp [GoVal.isMeta] at ht <;> simp [GetCustomFields, hv]

/-- Witness for C10 on a context holding an `int` under the trace-id key
and a `string` under the custom-fields key. -/
theorem get_readers_wrong_type_witness :
    illTypedCtx.value CtxKey.traceID = some (GoVal.int 7) ∧
    (GoVal.int 7).isStr = false ∧
    GetTraceID illTypedCtx = none ∧
    illTypedCtx.value CtxKey.customFields = some (GoVal.str "oops") ∧
    (GoVal.str "oops").isMeta = false ∧
    GetCustomFields illTypedCtx = none :=
  ⟨rfl, rfl, (get_readers_wrong_type illTypedCtx).2.2.1 (GoVal.int 7) rfl rfl,
   rfl, rfl,
   (get_readers_wrong_type illTypedCtx).2.2.2.2 (GoVal.str "oops") rfl rfl⟩

/-- Claim C9: a logger built by `NewLogger` renders JSON exactly when
the config has `EnableJSON` true or `Format` equal to `"json"`; any
other `Format` string yields the text formatter.  `DefaultConfig`
(Format json, EnableJSON false) therefore produces a JSON logger. -/
theorem newLogger_formatter_selection (fs : String → Bool) (cfg : Config)
    (l : LoggerState) (h : NewLogger fs cfg = some l) :
    l.formatter.isJson = (cfg.EnableJSON || cfg.Format == FormatJSON) ∧
    (NewLogger fs DefaultConfig).map (fun x => x.formatter.isJson)
      = some true := by
  constructor
  · rw [(newLogger_inv fs cfg l h).2.1]
    cases hj : (cfg.EnableJSON || cfg.Format == FormatJSON) <;>
      simp [hj, Formatter.isJson]
  · rfl

/-- Witness for C9 at `DefaultConfig`. -/
theorem newLogger_formatter_selection_witness :
    NewLogger fsAlways DefaultConfig = some defaultLogger ∧
    defaultLogger.formatter.isJson
      = (DefaultConfig.EnableJSON || DefaultConfig.Format == FormatJSON) :=
  ⟨rfl,
   (newLogger_formatter_selection fsAlways DefaultConfig defaultLogger rfl).1⟩

/-- Claim C5: a logger whose threshold was set to `cfg.Level` at
construction emits a record exactly for calls at severity at or above
that threshold (numerically `e.toNat ≤ cfg.Level.toNat`, smaller being
more severe) and nothing below it; after `SetLevel lvl` the same holds
for `lvl`. -/
theorem logger_level_threshold (fs : String → Bool) (cfg : Config)
    (l : LoggerState) (h : NewLogger fs cfg = some l) (lvl e : LogLevel)
    (fields : MetaMap) (msg : String) :
    ((logAt l e fields msg).isSome = true ↔
      e.toNat ≤ cfg.Level.toNat) ∧
    ((logAt (SetLevel l lvl) e fields msg).isSome = true ↔
      e.toNat ≤ lvl.toNat) := by
  have hl := (newLogger_inv fs cfg l h).1
  constructor
  · by_cases hc : e.toNat ≤ cfg.Level.toNat <;> simp [logAt, hl, hc]
  · by_cases hc : e.toNat ≤ lvl.toNat <;> simp [logAt, SetLevel, hc]

/-- Witness for C5: the default logger (threshold info) suppresses debug
records. -/
theorem logger_level_threshold_witness :
    NewLogger fsAlways DefaultConfig = some defaultLogger ∧
    ((logAt defaultLogger LogLevel.debug [] "m").isSome = true ↔
      LogLevel.debug.toNat ≤ DefaultConfig.Level.toNat) :=
  ⟨rfl, (logger_level_threshold fsAlways DefaultConfig defaultLogger rfl
    LogLevel.warn LogLevel.debug [] "m").1⟩

/-- Claim C3: starting from the registry's start state, a second
`InitGlobalLogger` call with any config `c2` is a no-op on the whole
registry state, and after the first call the global logger is a function
of `c1` alone: `NewLogger fs c1` on success, the error-level fallback
otherwise, so its level is `c1.Level` (or error on fallback) and its
format follows `c1` (or text on fallback). -/
theorem initGlobalLogger_first_call_wins (fs : String → Bool)
    (c1 c2 : Config) :
    InitGlobalLogger fs (InitGlobalLogger fs startGlobalState c1) c2
      = InitGlobalLogger fs startGlobalState c1 ∧
    (InitGlobalLogger fs startGlobalState c1).globalLogger
      = some ((NewLogger fs c1).getD (fallbackLogger c1)) ∧
    ((NewLogger fs c1).getD (fallbackLogger c1)).level
      = (match NewLogger fs c1 with
         | some _ => c1.Level
         | none => LogLevel.error) ∧
    ((NewLogger fs c1).getD (fallbackLogger c1)).formatter.isJson
      = (match NewLogger fs c1 with
         | some _ => (c1.EnableJSON || c1.Format == FormatJSON)
         | none => false) := by
  refine ⟨?_, ?_, ?_, ?_⟩
  · simp [InitGlobalLogger, startGlobalState]
  · simp [InitGlobalLogger, startGlobalState]
  · cases hn : NewLogger fs c1 with
    | none => simp [fallbackLogger]
    | some l =>
      simp only [Option.getD_some]
      exact (newLogger_inv fs c1 l hn).1
  · cases hn : NewLogger fs c1 with
    | none => simp [fallbackLogger, Formatter.isJson]
    | some l =>
      simp only [Option.getD_some]
      rw [(newLogger_inv fs c1 l hn).2.1]
      cases hj : (c1.EnableJSON || c1.Format == FormatJSON) <;>
        simp [hj, Formatter.isJson]

theorem metaLookup_none_of_forall (l : MetaMap) (s : String)
    (h : ∀ p ∈ l, p.1 ≠ s) : metaLookup l s = none := by
  induction l with
  | nil => rfl
  | cons p rest ih =>
    have hp : ¬s = p.1 := fun hc => (h p (by simp)) hc.symm
    obtain ⟨k', v'⟩ := p
    simp only [metaLookup, if_neg hp]
    exact ih fun q hq => h q (by simp [hq])

theorem metaLookup_bagInsertAll (l : List (String × GoVal)) (e : MetaMap)
    (s : String) (hnd : (l.map Prod.fst).Nodup) :
    metaLookup (bagInsertAll e l) s
      = (metaLookup l s).orElse fun _ => metaLookup e s := by
  induction l generalizing e with
  | nil => simp [bagInsertAll, metaLookup, Option.orElse]
  | cons p rest ih =>
    obtain ⟨k, v⟩ := p
    simp only [List.map_cons, List.nodup_cons] at hnd
    have hrest := ih (metaInsert e k v) hnd.2
    simp only [bagInsertAll, List.foldl_cons] at hrest ⊢
    rw [hrest, metaLookup_metaInsert]
    by_cases hs : s = k
    · subst hs
      have : metaLookup rest s = none := by
        refine metaLookup_none_of_forall rest s fun q hq hc => ?_
        exact hnd.1 (hc ▸ List.mem_map_of_mem Prod.fst hq)
      simp [metaLookup, this, Option.orElse]
    · simp [metaLookup, hs]

theorem getD_nodup (h : Heap) (hw : Heap.wf h) (a : Nat) :
    ((h.getD a []).map Prod.fst).Nodup := by
  by_cases hlt : a < h.length
  · rw [List.getD_eq_getElem?_getD, List.getElem?_eq_getElem hlt,
      Option.getD_some]
    exact hw _ (List.getElem_mem hlt)
  · rw [List.getD_eq_getElem?_getD, List.getElem?_eq_none
      (Nat.le_of_not_lt hlt)]
    simp

theorem readBag_nodup (h : Heap) (c : Ctx) (hw : Heap.wf h) :
    ((readBag h c).map Prod.fst).Nodup := by
  unfold readBag
  cases GetCustomFields c with
  | none => simp
  | some v =>
    cases v with
    | metaRef a =>
      simp only [derefMeta]
      exact getD_nodup h hw a
    | str s => simp [derefMeta]
    | int n => simp [derefMeta]
    | metaNil => simp [derefMeta]

theorem metaLookup_withOptField (e : MetaMap) (k : String)
    (o : Option String) (s : String) :
    metaLookup (withOptField e k o) s
      = if s = k then ((o.map GoVal.str).orElse fun _ => metaLookup e s)
        else metaLookup e s := by
  cases o with
  | none =>
    by_cases hs : s = k <;> simp [withOptField, hs, Option.orElse]
  | some v =>
    by_cases hs : s = k <;>
      simp [withOptField, metaLookup_metaInsert, hs, Option.orElse]

theorem addContextFields_lookup (h : Heap) (ctx : Ctx) (hw : Heap.wf h)
    (hd : ∀ p ∈ readBag h ctx, p.1 ≠ "request_id" ∧ p.1 ≠ "user_id" ∧
      p.1 ≠ "trace_id" ∧ p.1 ≠ "span_id") (s : String) :
    metaLookup (addContextFields h ctx []) s =
      if s = "request_id" then (GetRequestID ctx).map GoVal.str
      else if s = "user_id" then (GetUserID ctx).map GoVal.str
      else if s = "trace_id" then (GetTraceID ctx).map GoVal.str
      else if s = "span_id" then (GetSpanID ctx).map GoVal.str
      else metaLookup (readBag h ctx) s := by
  have hids : metaLookup (withOptField (withOptField (withOptField
      (withOptField [] "request_id" (GetRequestID ctx)) "user_id"
      (GetUserID ctx)) "trace_id" (GetTraceID ctx)) "span_id"
      (GetSpanID ctx)) s =
      if s = "request_id" then (GetRequestID ctx).map GoVal.str
      else if s = "user_id" then (GetUserID ctx).map GoVal.str
      else if s = "trace_id" then (GetTraceID ctx).map GoVal.str
      else if s = "span_id" then (GetSpanID ctx).map GoVal.str
      else none := by
    rw [metaLookup_withOptField, metaLookup_withOptField,
        metaLookup_withOptField, metaLookup_withOptField]
    by_cases h1 : s = "request_id" <;> by_cases h2 : s = "user_id" <;>
      by_cases h3 : s = "trace_id" <;> by_cases h4 : s = "span_id" <;>
      simp_all [metaLookup]
  unfold addContextFields
  cases hcf : GetCustomFields ctx with
  | none =>
    have hrb : readBag h ctx = [] := by simp [readBag, hcf]
    rw [hids, hrb]
    by_cases h1 : s = "request_id" <;> by_cases h2 : s = "user_id" <;>
      by_cases h3 : s = "trace_id" <;> by_cases h4 : s = "span_id" <;>
      simp_all [metaLookup]
  | some bag =>
    have hrb : readBag h ctx = derefMeta h bag := by simp [readBag, hcf]
    have hnd : ((derefMeta h bag).map Prod.fst).Nodup := by
      rw [← hrb]; exact readBag_nodup h ctx hw
    rw [metaLookup_bagInsertAll _ _ _ hnd, hids, ← hrb]
    by_cases h1 : s = "request_id"
    · rw [metaLookup_none_of_forall _ _ fun p hp => (hd p hp).1 ∘ (h1 ▸ ·)]
      simp [h1, Option.orElse]
    · by_cases h2 : s = "user_id"
      · rw [metaLookup_none_of_forall _ _ fun p hp => (hd p hp).2.1 ∘ (h2 ▸ ·)]
        simp [h1, h2, Option.orElse]
      · by_cases h3 : s = "trace_id"
        · rw [metaLookup_none_of_forall _ _
            fun p hp => (hd p hp).2.2.1 ∘ (h3 ▸ ·)]
          simp [h1, h2, h3, Option.orElse]
        · by_cases h4 : s = "span_id"
          · rw [metaLookup_none_of_forall _ _
              fun p hp => (hd p hp).2.2.2 ∘ (h4 ▸ ·)]
            simp [h1, h2, h3, h4, Option.orElse]
          · simp only [if_neg h1, if_neg h2, if_neg h3, if_neg h4]
            cases metaLookup (readBag h ctx) s <;> simp [Option.orElse]

/-- Claim C4 (amended): a record emitted by a `*Contextf` call carries as
structured attributes exactly the bindings of the context — each bound id
under its field name, every custom-bag entry under its key, absent
bindings omitted — provided no custom-bag key equals one of the four id
field names; on such a name clash the custom entry overwrites the id
attribute (see the counterexample). -/
theorem contextf_record_fields (l : LoggerState) (h : Heap) (ctx : Ctx)
    (lvl : LogLevel) (msg : String) (r : Record) (hw : Heap.wf h)
    (hd : ∀ p ∈ readBag h ctx, p.1 ≠ "request_id" ∧ p.1 ≠ "user_id" ∧
      p.1 ≠ "trace_id" ∧ p.1 ≠ "span_id")
    (he : logContextf l h ctx lvl msg = some r) (s : String) :
    metaLookup r.fields s =
      if s = "request_id" then (GetRequestID ctx).map GoVal.str
      else if s = "user_id" then (GetUserID ctx).map GoVal.str
      else if s = "trace_id" then (GetTraceID ctx).map GoVal.str
      else if s = "span_id" then (GetSpanID ctx).map GoVal.str
      else metaLookup (readBag h ctx) s := by
  have hf : r.fields = addContextFields h ctx [] := by
    unfold logContextf logAt at he
    split at he
    · cases he
      rfl
    · cases he
  rw [hf]
  exact addContextFields_lookup h ctx hw hd s

/-- Counterexample to C4 as stated: the context binds request id `"r"`
and the custom entry `("request_id", "x")`; the emitted record's
`request_id` attribute is the custom value `"x"`, not the bound request
id `"r"`, so the record does not carry both bindings. -/
theorem contextf_record_fields_counterexample :
    GetRequestID clashPair.2 = some "r" ∧
    metaLookup (readBag clashPair.1 clashPair.2) "request_id"
      = some (GoVal.str "x") ∧
    (logContextf defaultLogger clashPair.1 clashPair.2 LogLevel.info "m").map
        (fun r => metaLookup r.fields "request_id")
      = some (some (GoVal.str "x")) ∧
    some (GoVal.str "x") ≠ some (GoVal.str "r") := by
  refine ⟨rfl, rfl, rfl, ?_⟩
  decide

/-- Witness for C4 (amended) at the spec's scenario: request id `req-1`
plus custom field `a = 1` both appear in the emitted record. -/
theorem contextf_record_fields_witness :
    Heap.wf demoPair.1 ∧
    (∀ p ∈ readBag demoPair.1 demoPair.2, p.1 ≠ "request_id" ∧
      p.1 ≠ "user_id" ∧ p.1 ≠ "trace_id" ∧ p.1 ≠ "span_id") ∧
    logContextf defaultLogger demoPair.1 demoPair.2 LogLevel.info "m"
      = some demoRecord ∧
    metaLookup demoRecord.fields "request_id" = some (GoVal.str "req-1") ∧
    metaLookup demoRecord.fields "a" = some (GoVal.int 1) :=
  ⟨by unfold Heap.wf; decide, by decide, rfl,
   (contextf_record_fields defaultLogger demoPair.1 demoPair.2 LogLevel.info
      "m" demoRecord (by unfold Heap.wf; decide) (by decide) rfl
      "request_id").trans (by decide),
   (contextf_record_fields defaultLogger demoPair.1 demoPair.2 LogLevel.info
      "m" demoRecord (by unfold Heap.wf; decide) (by decide) rfl "a").trans
     (by decide)⟩

theorem wf_append (h t : Heap) (c : Ctx) (hwf : c.wf h) : c.wf (h ++ t) := by
  induction c with
  | background => trivial
  | withValue p k v ih =>
    refine ⟨?_, ih hwf.2⟩
    cases v with
    | metaRef a =>
      have ha : a < h.length := hwf.1
      simp only [GoVal.refOk, List.length_append]
      omega
    | str s => trivial
    | int n => trivial
    | metaNil => trivial

theorem applyOp_heap_grows (s : Heap × Ctx) (op : WOp) :
    ∃ t, (applyOp s op).1 = s.1 ++ t := by
  cases op with
  | custom k v => exact ⟨_, rfl⟩
  | reqID v => exact ⟨[], (List.append_nil s.1).symm⟩
  | userID v => exact ⟨[], (List.append_nil s.1).symm⟩
  | traceID v => exact ⟨[], (List.append_nil s.1).symm⟩
  | spanID v => exact ⟨[], (List.append_nil s.1).symm⟩

theorem applyOps_heap_grows (ops : List WOp) : ∀ s : Heap × Ctx,
    ∃ t, (applyOps s ops).1 = s.1 ++ t := by
  induction ops with
  | nil => exact fun s => ⟨[], (List.append_nil s.1).symm⟩
  | cons op rest ih =>
    intro s
    obtain ⟨t1, h1⟩ := applyOp_heap_grows s op
    obtain ⟨t2, h2⟩ := ih (applyOp s op)
    refine ⟨t1 ++ t2, ?_⟩
    rw [show applyOps s (op :: rest) = applyOps (applyOp s op) rest from rfl,
      h2, h1, List.append_assoc]

theorem readersOf_append (h t : Heap) (c : Ctx) (hwf : c.wf h) :
    readersOf (h ++ t) c = readersOf h c := by
  simp [readersOf, readBag_append h t c hwf]

theorem wf_applyOp (h : Heap) (c : Ctx) (op : WOp) (hwf : c.wf h) :
    (applyOp (h, c) op).2.wf (applyOp (h, c) op).1 := by
  cases op with
  | reqID v => exact ⟨trivial, hwf⟩
  | userID v => exact ⟨trivial, hwf⟩
  | traceID v => exact ⟨trivial, hwf⟩
  | spanID v => exact ⟨trivial, hwf⟩
  | custom k v =>
    refine ⟨?_, wf_append h _ c hwf⟩
    show h.length < (h ++ [metaInsert (readBag h c) k v]).length
    simp

theorem readersOf_applyOp (h : Heap) (c : Ctx) (op : WOp) :
    readersOf (applyOp (h, c) op).1 (applyOp (h, c) op).2
      = stepReaders (readersOf h c) op := by
  cases op with
  | reqID v =>
    simp [applyOp, WithRequestID, readersOf, stepReaders, GetRequestID,
      GetUserID, GetTraceID, GetSpanID, GetCustomFields, readBag, Ctx.value]
  | userID v =>
    simp [applyOp, WithUserID, readersOf, stepReaders, GetRequestID,
      GetUserID, GetTraceID, GetSpanID, GetCustomFields, readBag, Ctx.value]
  | traceID v =>
    simp [applyOp, WithTraceID, readersOf, stepReaders, GetRequestID,
      GetUserID, GetTraceID, GetSpanID, GetCustomFields, readBag, Ctx.value]
  | spanID v =>
    simp [applyOp, WithSpanID, readersOf, stepReaders, GetRequestID,
      GetUserID, GetTraceID, GetSpanID, GetCustomFields, readBag, Ctx.value]
  | custom k v =>
    simp [applyOp, WithCustomField, readersOf, stepReaders, GetRequestID,
      GetUserID, GetTraceID, GetSpanID, GetCustomFields, readBag, Ctx.value,
      derefMeta, List.getElem?_concat_length]

theorem orElse_some_absorb {α : Type} (x : Option α) (a : α)
    (f : Unit → Option α) :
    (x.orElse fun _ => some a).orElse f = x.orElse fun _ => some a := by
  cases x <;> simp [Option.orElse]

theorem orElse_none_right {α : Type} (x : Option α) :
    (x.orElse fun _ => none) = x := by
  cases x <;> simp [Option.orElse]

theorem expected_cons (r : Readers) (op : WOp) (rest : List WOp) :
    expectedReaders r (op :: rest) = expectedReaders (stepReaders r op) rest := by
  cases op with
  | reqID s =>
    simp [expectedReaders, stepReaders, lastBound, opCustoms, selReq,
      selUser, selTrace, selSpan, orElse_some_absorb, orElse_none_right]
  | userID s =>
    simp [expectedReaders, stepReaders, lastBound, opCustoms, selReq,
      selUser, selTrace, selSpan, orElse_some_absorb, orElse_none_right]
  | traceID s =>
    simp [expectedReaders, stepReaders, lastBound, opCustoms, selReq,
      selUser, selTrace, selSpan, orElse_some_absorb, orElse_none_right]
  | spanID s =>
    simp [expectedReaders, stepReaders, lastBound, opCustoms, selReq,
      selUser, selTrace, selSpan, orElse_some_absorb, orElse_none_right]
  | custom k v =>
    simp [expectedReaders, stepReaders, lastBound, opCustoms, selReq,
      selUser, selTrace, selSpan, orElse_some_absorb, orElse_none_right,
      bagInsertAll]

theorem applyOps_readers (ops : List WOp) : ∀ (h : Heap) (c : Ctx),
    c.wf h →
    readersOf (applyOps (h, c) ops).1 (applyOps (h, c) ops).2
      = expectedReaders (readersOf h c) ops := by
  induction ops with
  | nil =>
    intro h c hwf
    simp [applyOps, expectedReaders, lastBound, opCustoms, bagInsertAll,
      Option.orElse, readersOf]
  | cons op rest ih =>
    intro h c hwf
    rw [show applyOps (h, c) (op :: rest) = applyOps (applyOp (h, c) op) rest
        from rfl,
      expected_cons, ← readersOf_applyOp h c op]
    have h1 := wf_applyOp h c op hwf
    have h2 := ih (applyOp (h, c) op).1 (applyOp (h, c) op).2 h1
    simpa using h2

/-- Claim C2: for every heap-consistent context and every finite sequence
of `With*` calls, the derived context's readers return every binding of
its ancestors plus the ones the sequence added, innermost binding winning
(ids follow the latest op binding them, the bag layers every custom entry
over the ancestor bag), and every reader result on the ancestor context —
including the dereferenced bag contents — is unchanged by the descendant
calls. -/
theorem with_get_chain_spec (h : Heap) (c : Ctx) (ops : List WOp)
    (hwf : c.wf h) :
    readersOf (applyOps (h, c) ops).1 c = readersOf h c ∧
    readersOf (applyOps (h, c) ops).1 (applyOps (h, c) ops).2
      = expectedReaders (readersOf h c) ops := by
  constructor
  · obtain ⟨t, ht⟩ := applyOps_heap_grows ops (h, c)
    rw [ht]
    exact readersOf_append h t c hwf
  · exact applyOps_readers ops h c hwf

/-- Witness for C2 on a concrete four-op sequence from the background
context and empty heap. -/
theorem with_get_chain_spec_witness :
    Ctx.wf [] Ctx.background ∧
    readersOf (applyOps (([] : Heap), Ctx.background) demoOps).1
        Ctx.background
      = readersOf [] Ctx.background ∧
    readersOf (applyOps (([] : Heap), Ctx.background) demoOps).1
        (applyOps (([] : Heap), Ctx.background) demoOps).2
      = expectedReaders (readersOf [] Ctx.background) demoOps :=
  ⟨trivial, (with_get_chain_spec [] Ctx.background demoOps trivial).1,
   (with_get_chain_spec [] Ctx.background demoOps trivial).2⟩
